import Mathlib

/-!
Verification of the qtools repository (src/python/qtools): a shallow
embedding in Lean of the broker (broker.py), the send client (send.py),
the request client (request.py) and the receive client (receive.py),
together with theorems settling the specification claims about them.

Conventions used throughout:

* Python `collections.deque` objects are embedded as Lean lists oriented
  so that index 0 is the deque's RIGHT end (the end `pop()` removes
  from).  Under this orientation, `appendleft(x)` is `l ++ [x]`,
  `append(x)` is `x :: l`, and `pop()` takes the head of the Lean list.
  The broker queue's message deque only ever uses `append` (tail) and
  `popleft` (head), so it is embedded in natural orientation: index 0 is
  the LEFT end, `append(x)` is `l ++ [x]` and `popleft` takes the head.

* Python dicts keyed by link names or addresses are embedded as
  association lists; a plain `d[k]` access that can miss is an
  explicit lookup returning `Option`, and a miss mirrors Python's
  KeyError.

* Handlers that can raise return `State × Option Err`; the returned
  state carries exactly the mutations performed before the raise point,
  mirroring Python's exception semantics.

* Ghost fields (`storedLog`, `delivered`, `fedLog`, `sentLog`) record
  event histories for stating temporal properties; the executable
  handlers append to them exactly where the source performs the
  corresponding side effect (`store_message`, `link.send`,
  `send_input`, `sender.send`).
-/

namespace QTools

/-! ## Broker data model (broker.py) -/

/-- A message stored at the broker.  `mid` is a ghost identity: the broker
assigns consecutive identities in arrival order so that "the same stored
message" is expressible; `body` is the AMQP message body. -/
structure BMessage where
  mid : Nat
  body : String
  deriving DecidableEq

/-- The broker-side state of one proton link: its role (`is_sender`), its
current outgoing credit, and the local source/target addresses the broker
assigns in `on_link_opening`. -/
structure LinkSt where
  isSender : Bool
  credit : Nat
  sourceAddr : Option String
  targetAddr : Option String
  deriving DecidableEq

/-- `_BrokerQueue` (broker.py lines 58-101): a FIFO `messages` deque and a
`consumers` list of sender links (identified by link id, in subscription
order).  `storedLog` and `delivered` are ghost histories: every message
ever stored (in `store_message` order), and every `link.send` performed by
`forward_messages` (consumer id with the message, in send order). -/
structure BQueue where
  messages : List BMessage
  consumers : List Nat
  storedLog : List BMessage
  delivered : List (Nat × BMessage)
  deriving DecidableEq

/-- `_BrokerHandler` state (broker.py lines 103-108): the queue registry
dict keyed by address (`None` is a possible dict key in Python, hence
`Option String`), the link states, and the ghost counter providing fresh
message identities. -/
structure Broker where
  queues : List (Option String × BQueue)
  links : List (Nat × LinkSt)
  nextMid : Nat
  deriving DecidableEq

/-- Errors a broker handler can raise. -/
inductive BErr where
  | assertionError
  | nameError
  | keyError
  deriving DecidableEq

def emptyQueue : BQueue := ⟨[], [], [], []⟩

def brokerInit : Broker := ⟨[], [], 0⟩

/-- Association-list lookup for the queue registry dict. -/
def qlookup : List (Option String × BQueue) → Option String → Option BQueue
  | [], _ => none
  | (k, q) :: rest, a => if k = a then some q else qlookup rest a

/-- Replace the binding of a present key (first occurrence). -/
def qupdate : List (Option String × BQueue) → Option String → BQueue →
    List (Option String × BQueue)
  | [], _, _ => []
  | (k, q) :: rest, a, q' =>
      if k = a then (k, q') :: rest else (k, q) :: qupdate rest a q'

/-- Association-list lookup for the link table. -/
def llookup : List (Nat × LinkSt) → Nat → Option LinkSt
  | [], _ => none
  | (k, l) :: rest, i => if k = i then some l else llookup rest i

/-- Replace the binding of a present link id (first occurrence). -/
def lupdate : List (Nat × LinkSt) → Nat → LinkSt → List (Nat × LinkSt)
  | [], _, _ => []
  | (k, l) :: rest, i, l' =>
      if k = i then (k, l') :: rest else (k, l) :: lupdate rest i l'

/-- `_BrokerHandler.get_queue` (broker.py lines 116-122): dict lookup with
lazy creation; returns the (possibly new) state together with the queue
found or created. -/
def getQueue (st : Broker) (a : Option String) : Broker × BQueue :=
  match qlookup st.queues a with
  | some q => (st, q)
  | none => ({ st with queues := st.queues ++ [(a, emptyQueue)] }, emptyQueue)

/-- The `while` loop of `_BrokerQueue.forward_messages` (broker.py lines
95-101): while the link's credit is positive, pop the head of the FIFO
(break on IndexError when it is empty) and `link.send` it.  In proton,
`link.send` consumes one unit of credit; the ghost `delivered` log records
each send in order.  Returns the remaining credit, the remaining FIFO and
the extended delivery log. -/
def forwardLoop (lid : Nat) :
    Nat → List BMessage → List (Nat × BMessage) →
    Nat × List BMessage × List (Nat × BMessage)
  | 0, msgs, dlv => (0, msgs, dlv)
  | c + 1, [], dlv => (c + 1, [], dlv)
  | c + 1, m :: rest, dlv => forwardLoop lid c rest (dlv ++ [(lid, m)])

/-- `_BrokerQueue.forward_messages(link)` (broker.py lines 92-101) acting
on the whole broker state for the queue at address `a`: asserts
`link.is_sender`, then drains per `forwardLoop`.  The `none` fallbacks
guard model-level lookups that cannot miss at the call sites (the handlers
ensure the queue exists, and `event.link` always exists in proton). -/
def forwardMessages (st : Broker) (a : Option String) (lid : Nat) :
    Broker × Option BErr :=
  match qlookup st.queues a with
  | none => (st, none)
  | some q =>
    match llookup st.links lid with
    | none => (st, none)
    | some l =>
      if l.isSender then
        let r := forwardLoop lid l.credit q.messages q.delivered
        ({ st with
            queues := qupdate st.queues a
              { q with messages := r.2.1, delivered := r.2.2 },
            links := lupdate st.links lid { l with credit := r.1 } }, none)
      else (st, some .assertionError)

/-- The `for link in queue.consumers` loop of `_BrokerHandler.on_message`
(broker.py lines 184-185): forward to each consumer in subscription order,
aborting at the first raising call (Python exception propagation). -/
def forwardAll (st : Broker) (a : Option String) :
    List Nat → Broker × Option BErr
  | [] => (st, none)
  | lid :: rest =>
    match forwardMessages st a lid with
    | (st', none) => forwardAll st' a rest
    | (st', some e) => (st', some e)

/-- `_BrokerHandler.on_message` (broker.py lines 180-185): look up (or
create) the queue for the link's local target address, `store_message`
(append to the FIFO tail, broker.py lines 89-90), then forward to every
consumer.  The stored message receives the next fresh ghost identity. -/
def onMessage (st : Broker) (lid : Nat) (body : String) :
    Broker × Option BErr :=
  let tgt := match llookup st.links lid with
             | some l => l.targetAddr
             | none => none
  let p := getQueue st tgt
  let msg : BMessage := ⟨p.1.nextMid, body⟩
  let q1 := { p.2 with messages := p.2.messages ++ [msg],
                       storedLog := p.2.storedLog ++ [msg] }
  let st2 := { p.1 with queues := qupdate p.1.queues tgt q1,
                        nextMid := p.1.nextMid + 1 }
  forwardAll st2 tgt q1.consumers

/-- `_BrokerHandler.on_sendable` (broker.py lines 176-178): look up (or
create) the queue for the link's local source address and forward to that
link only. -/
def onSendable (st : Broker) (lid : Nat) : Broker × Option BErr :=
  let src := match llookup st.links lid with
             | some l => l.sourceAddr
             | none => none
  let p := getQueue st src
  forwardMessages p.1 src lid

/-- The data carried by a link-attach event: the link, its role, and the
peer's remote source/target addresses.  `dynAddr` stands for the fresh
`str(_uuid.uuid4())` synthesised for a dynamic source (broker.py line 127;
the uuid helper lives outside broker.py, so the fresh text is supplied by
the event, per the spec: "synthesise a fresh address"). -/
structure AttachEv where
  lid : Nat
  isSender : Bool
  dynamic : Bool
  remoteSrc : Option String
  dynAddr : String
  remoteTgt : Option String
  deriving DecidableEq

/-- Registration of the proton link object underlying an attach event:
before `on_link_opening` runs, the link exists with the event's role, no
credit and no local addresses.  A link id is never reused. -/
def registerLink (st : Broker) (ev : AttachEv) : Broker :=
  match llookup st.links ev.lid with
  | some _ => st
  | none => { st with links := st.links ++ [(ev.lid, ⟨ev.isSender, 0, none, none⟩)] }

/-- The tail of the sender path of `on_link_opening` (broker.py lines
135-136): `get_queue(address)` then `_BrokerQueue.add_consumer` (broker.py
lines 71-77), which asserts the link is not already a consumer and
appends it to the subscription list. -/
def addConsumerStep (st : Broker) (addr : String) (lid : Nat) :
    Broker × Option BErr :=
  if lid ∈ (getQueue st (some addr)).2.consumers then
    ((getQueue st (some addr)).1, some .assertionError)
  else
    ({ (getQueue st (some addr)).1 with
       queues := qupdate (getQueue st (some addr)).1.queues (some addr)
         ({ (getQueue st (some addr)).2 with
            consumers := (getQueue st (some addr)).2.consumers ++ [lid] }) },
     none)

/-- `_BrokerHandler.on_link_opening` (broker.py lines 124-143).  Sender
path: compute the address (fresh when dynamic, else the remote source
address), `assert address is not None`, set the local source address,
look up / create the queue and `add_consumer`.  Receiver path: take the
remote target address, `assert` it present, set the local target
address.  On an assertion failure the returned state carries exactly the
mutations made before the raise. -/
def onLinkOpening (st : Broker) (ev : AttachEv) : Broker × Option BErr :=
  match llookup st.links ev.lid with
  | none => (st, none)
  | some l =>
    if l.isSender then
      match (if ev.dynamic then some ev.dynAddr else ev.remoteSrc) with
      | none => (st, some .assertionError)
      | some addr =>
        addConsumerStep
          ({ st with
             links := lupdate st.links ev.lid ({ l with sourceAddr := some addr }) })
          addr ev.lid
    else
      match ev.remoteTgt with
      | none => (st, some .assertionError)
      | some addr =>
        ({ st with
           links := lupdate st.links ev.lid { l with targetAddr := some addr } },
         none)

/-- `_BrokerHandler.on_link_closing` (broker.py lines 145-148).  For a
sender the body reads `self.queues[link.source.address]`, but no name
`link` is bound in that scope (the intended object is `event.link`):
Python raises NameError at that first statement, before any state change,
so the consumer is never removed.  For a receiver the body is empty. -/
def onLinkClosing (st : Broker) (lid : Nat) : Broker × Option BErr :=
  match llookup st.links lid with
  | none => (st, none)
  | some l => if l.isSender then (st, some .nameError) else (st, none)

/-- `_BrokerHandler.remove_consumers` (broker.py lines 166-174), shared by
`on_connection_closing` and `on_disconnected`: walk the given links of the
connection; for each sender, a plain dict access `self.queues[...]`
(KeyError aborts the walk) and `remove_consumer` (broker.py lines 79-87,
which removes the first occurrence and swallows ValueError when absent). -/
def removeConsumers (st : Broker) : List Nat → Broker × Option BErr
  | [] => (st, none)
  | lid :: rest =>
    match llookup st.links lid with
    | none => removeConsumers st rest
    | some l =>
      if l.isSender then
        match qlookup st.queues l.sourceAddr with
        | none => (st, some .keyError)
        | some q =>
          let q1 := { q with consumers := q.consumers.erase lid }
          removeConsumers
            { st with queues := qupdate st.queues l.sourceAddr q1 } rest
      else removeConsumers st rest

/-- The events a broker run consists of.  `flow` is the environment
granting outgoing credit to a sender link; the remaining constructors are
the handler entry points of `_BrokerHandler`.  `connClosing` carries the
remote-active links of the closing connection. -/
inductive BEvent where
  | linkOpening (ev : AttachEv)
  | linkClosing (lid : Nat)
  | flow (lid : Nat) (n : Nat)
  | sendable (lid : Nat)
  | message (lid : Nat) (body : String)
  | connClosing (lids : List Nat)
  deriving DecidableEq

/-- One broker step: run the handler for the event; a raising handler
leaves behind exactly the state it reached before the raise. -/
def bstep (st : Broker) : BEvent → Broker
  | .linkOpening ev => (onLinkOpening (registerLink st ev) ev).1
  | .linkClosing lid => (onLinkClosing st lid).1
  | .flow lid n =>
      match llookup st.links lid with
      | some l =>
          if l.isSender then
            { st with links := lupdate st.links lid { l with credit := l.credit + n } }
          else st
      | none => st
  | .sendable lid => (onSendable st lid).1
  | .message lid body => (onMessage st lid body).1
  | .connClosing lids => (removeConsumers st lids).1

/-- A broker run from the empty initial state. -/
def brokerRun (evs : List BEvent) : Broker := evs.foldl bstep brokerInit

/-! ## Send client (send.py)

The pending-message deque `command.messages` and the handler's `senders`
deque are embedded with index 0 at the Python RIGHT end (the `pop()`
side); see the header comment.  Under that orientation the Lean list
reads oldest-to-newest. -/

/-- Per-sender proton credit, defaulting to 0 for a sender that has not
been granted any. -/
def clookup : List (Nat × Nat) → Nat → Nat
  | [], _ => 0
  | (k, c) :: rest, i => if k = i then c else clookup rest i

/-- Update (or insert) a sender's credit. -/
def cupdate : List (Nat × Nat) → Nat → Nat → List (Nat × Nat)
  | [], i, c' => [(i, c')]
  | (k, c) :: rest, i, c' =>
      if k = i then (k, c') :: rest else (k, c) :: cupdate rest i c'

/-- `_SendHandler` plus the pieces of `SendCommand` it touches (send.py
lines 112-216): the pending deque (a `none` entry is the `None`
end-of-input sentinel), the senders deque, per-sender credit, the `ready`
latch, the stop flag, the message counters and the closed flag.
`fedLog` and `sentLog` are ghost histories: real bodies in `send_input`
order and in `sender.send` order.  `sentinelSeen` is a ghost flag set
when `send_message` pops the sentinel. -/
structure SendSt where
  pending : List (Option String)
  senders : List Nat
  credits : List (Nat × Nat)
  readyFlag : Bool
  stopRequested : Bool
  sentMessages : Nat
  settledMessages : Nat
  closed : Bool
  sentinelSeen : Bool
  fedLog : List String
  sentLog : List String
  deriving DecidableEq

/-- `SendCommand.send_input` (send.py lines 81-83): `appendleft` the item
onto the pending deque (the accompanying injected "input" event is a
separate run event). -/
def sendInput (st : SendSt) (m : Option String) : SendSt :=
  { st with pending := st.pending ++ [m],
            fedLog := match m with
                      | some b => st.fedLog ++ [b]
                      | none => st.fedLog }

/-- The tail of `send_message` once a sender is chosen (send.py lines
197-203): if the chosen sender has no credit, `append` the popped message
back onto the pop end of the pending deque and return; otherwise
`sender.send` it (consuming one credit) and count it. -/
def sendWith (st : SendSt) (body : String) (rest : List (Option String))
    (lid : Nat) (rotated : List Nat) : SendSt :=
  if clookup st.credits lid = 0 then
    { st with pending := some body :: rest, senders := rotated }
  else
    { st with pending := rest, senders := rotated,
              credits := cupdate st.credits lid (clookup st.credits lid - 1),
              sentMessages := st.sentMessages + 1,
              sentLog := st.sentLog ++ [body] }

/-- `_SendHandler.send_message` (send.py lines 171-203).  `evLink` is
`event.link`: a sender for `on_sendable` events, `none` for `on_input`
events.  Return at once when stop was requested or the latch is unset;
pop one item (IndexError on empty: return); a sentinel closes now when
all sent deliveries are settled, else records `stop_requested`; otherwise
choose the sender (the event's, else rotate the deque: pop the tail and
push it back at the head) and continue per `sendWith`.  The
`senders = []` arm is the IndexError a `pop()` on an empty senders deque
would raise, which loses the popped message (unreachable: at least one
sender exists from `on_start`). -/
def sendMessage (st : SendSt) (evLink : Option Nat) : SendSt :=
  if st.stopRequested then st
  else if !st.readyFlag then st
  else match st.pending with
  | [] => st
  | none :: rest =>
      if st.sentMessages = st.settledMessages then
        { st with pending := rest, closed := true, sentinelSeen := true }
      else { st with pending := rest, stopRequested := true, sentinelSeen := true }
  | some body :: rest =>
      match evLink with
      | some lid => sendWith st body rest lid st.senders
      | none =>
        match st.senders with
        | [] => { st with pending := rest }
        | s :: srest => sendWith st body rest s (srest ++ [s])

/-- `_SendHandler.on_settled` (send.py lines 161-169): count the
settlement; close once stop was requested and all sent deliveries are
settled. -/
def sendOnSettled (st : SendSt) : SendSt :=
  let st1 := { st with settledMessages := st.settledMessages + 1 }
  if st1.stopRequested && (st1.sentMessages == st1.settledMessages) then
    { st1 with closed := true }
  else st1

/-- The events of a send-client run: the feeder thread enqueueing a line
or the end-of-input sentinel, the injected input event, a credit callback
on a sender, a credit grant from the peer, a settlement, and the reactor
setting the `ready` latch after the last link attach (send.py lines
150-153). -/
inductive SEvent where
  | feed (body : String)
  | feedSentinel
  | inputEv
  | sendable (lid : Nat)
  | flow (lid : Nat) (n : Nat)
  | settled
  | readySet
  deriving DecidableEq

/-- One send-client step.  After `close()` (send.py lines 212-216) every
connection and the event injector are closed, so the reactor delivers no
further callbacks and the feeder's enqueues can no longer be observed:
a closed client takes no step. -/
def sstep (st : SendSt) (ev : SEvent) : SendSt :=
  if st.closed then st
  else match ev with
  | .feed body => sendInput st (some body)
  | .feedSentinel => sendInput st none
  | .inputEv => sendMessage st none
  | .sendable lid => sendMessage st (some lid)
  | .flow lid n => { st with credits := cupdate st.credits lid (clookup st.credits lid + n) }
  | .settled => sendOnSettled st
  | .readySet => { st with readyFlag := true }

/-- The send client's initial state: the senders created by `on_start`
(one per address URL, at least one), nothing pending, no credit, latch
unset. -/
def sendInit (senders : List Nat) : SendSt :=
  ⟨[], senders, [], false, false, 0, 0, false, false, [], []⟩

/-- A send-client run. -/
def sendRun (senders : List Nat) (evs : List SEvent) : SendSt :=
  evs.foldl sstep (sendInit senders)

/-! ## Request client (request.py) -/

/-- An outgoing request message: body plus the `address` and `reply_to`
fields `send_request` fills in. -/
structure ReqMsg where
  body : String
  address : Option String
  replyTo : Option String
  deriving DecidableEq

/-- Lookup in the `receivers_by_sender` dict (request.py line 95). -/
def nlookup : List (Nat × Nat) → Nat → Option Nat
  | [], _ => none
  | (k, v) :: rest, i => if k = i then some v else nlookup rest i

/-- Lookup of a link's address attribute (remote dynamic source of a
receiver, or local target of a sender), `none` when unset. -/
def olookup : List (Nat × Option String) → Nat → Option String
  | [], _ => none
  | (k, v) :: rest, i => if k = i then v else olookup rest i

/-- `_Handler` of request.py (lines 90-176) plus the pieces of
`RequestCommand` it touches: the requests deque (same orientation as the
send client's), the senders deque, per-sender credit, the
sender-to-reply-receiver map fixed at `open_links`, the remote-assigned
dynamic address of each receiver and the target address of each sender,
the latch, the counters, and the stop/closed flags.  `sentLog` is the
ghost history of transmitted requests. -/
structure ReqSt where
  requests : List (Option ReqMsg)
  senders : List Nat
  credits : List (Nat × Nat)
  receiversBySender : List (Nat × Nat)
  receiverAddr : List (Nat × Option String)
  senderTarget : List (Nat × Option String)
  readyFlag : Bool
  stopRequested : Bool
  sentRequests : Nat
  settledRequests : Nat
  receivedResponses : Nat
  closed : Bool
  sentLog : List ReqMsg
  deriving DecidableEq

/-- The tail of `send_request` once a sender is chosen (request.py lines
157-176): put the request back on zero credit; otherwise look up the
paired reply receiver (a dict access whose KeyError would lose the popped
request), set `reply_to` to the receiver's remote dynamic source address,
default the request's `address` to the sender's target address, transmit
and count. -/
def reqSendWith (st : ReqSt) (req : ReqMsg) (rest : List (Option ReqMsg))
    (lid : Nat) (rotated : List Nat) : ReqSt :=
  if clookup st.credits lid = 0 then
    { st with requests := some req :: rest, senders := rotated }
  else
    match nlookup st.receiversBySender lid with
    | none => { st with requests := rest, senders := rotated }
    | some rcv =>
      { st with requests := rest, senders := rotated,
                credits := cupdate st.credits lid (clookup st.credits lid - 1),
                sentRequests := st.sentRequests + 1,
                sentLog := st.sentLog ++
                  [(if ({ req with replyTo := olookup st.receiverAddr rcv }).address
                        = none then
                      { req with replyTo := olookup st.receiverAddr rcv,
                                 address := olookup st.senderTarget lid }
                    else { req with replyTo := olookup st.receiverAddr rcv })] }

/-- `_Handler.send_request` (request.py lines 131-176): identical control
flow to `send_message` up to choosing the sender, except that the
sentinel closes only when `sent_requests == received_responses`; the
chosen sender is handled by `reqSendWith`. -/
def sendRequest (st : ReqSt) (evLink : Option Nat) : ReqSt :=
  if st.stopRequested then st
  else if !st.readyFlag then st
  else match st.requests with
  | [] => st
  | none :: rest =>
      if st.sentRequests = st.receivedResponses then
        { st with requests := rest, closed := true }
      else { st with requests := rest, stopRequested := true }
  | some req :: rest =>
      match evLink with
      | some lid => reqSendWith st req rest lid st.senders
      | none =>
        match st.senders with
        | [] => { st with requests := rest }
        | s :: srest => reqSendWith st req rest s (srest ++ [s])

/-- `_Handler.on_settled` (request.py lines 117-121): count the
settlement; close only once stop was requested and every sent request has
its response (`sent_requests == received_responses` — the settled count
plays no part in the condition). -/
def reqOnSettled (st : ReqSt) : ReqSt :=
  let st1 := { st with settledRequests := st.settledRequests + 1 }
  if st1.stopRequested && (st1.sentRequests == st1.receivedResponses) then
    { st1 with closed := true }
  else st1

/-- `_Handler.on_message` (request.py lines 123-129): count the response;
close under the same condition as `on_settled`. -/
def reqOnMessage (st : ReqSt) : ReqSt :=
  let st1 := { st with receivedResponses := st.receivedResponses + 1 }
  if st1.stopRequested && (st1.sentRequests == st1.receivedResponses) then
    { st1 with closed := true }
  else st1

/-! ## Receive client (receive.py) -/

/-- `_Handler` of receive.py (lines 71-112) plus the pieces of
`ReceiveCommand` it reads: the `received_messages` counter, the optional
`--count` bound (an `int` argument, so `Int`), the `--no-prefix` and
`--json` flags, and the output sink modelled as the list of chunks
written, the number of explicit flushes, and whether `close()` was
called. -/
structure RecvSt where
  receivedMessages : Int
  maxCount : Option Int
  noPrefix : Bool
  jsonMode : Bool
  output : List String
  flushes : Nat
  closeRequested : Bool
  deriving DecidableEq

/-- `_Handler.on_message` (receive.py lines 80-105).  `jsonFn` stands for
`json.dumps` of `convert_message_to_data(message)` (a helper outside the
given sources); `srcAddr` is `event.link.source.address` and `body` the
message body.  The Python guard `received_messages == max_count` compares
an `int` against `Optional[int]`, false when the bound is unset. -/
def recvOnMessage (jsonFn : String → String) (st : RecvSt)
    (srcAddr : String) (body : String) : RecvSt :=
  if some st.receivedMessages = st.maxCount then st
  else
    let st1 := { st with receivedMessages := st.receivedMessages + 1 }
    let st2 := if st1.noPrefix then st1
               else { st1 with output := st1.output ++ [srcAddr ++ ": "] }
    let st3 := { st2 with
      output := st2.output ++ [if st2.jsonMode then jsonFn body else body] }
    let st4 := { st3 with output := st3.output ++ ["\n"] }
    if some st4.receivedMessages = st4.maxCount then
      { st4 with flushes := st4.flushes + 1, closeRequested := true }
    else st4

/-! ## Association-list lemmas -/

theorem qlookup_append_some {qs : List (Option String × BQueue)} {b : Option String}
    {q : BQueue} (t : List (Option String × BQueue))
    (h : qlookup qs b = some q) : qlookup (qs ++ t) b = some q := by
  induction qs with
  | nil => simp [qlookup] at h
  | cons p rest ih =>
    obtain ⟨k, q0⟩ := p
    by_cases hk : k = b
    · simpa [qlookup, hk] using h
    · simp [qlookup, hk] at h ⊢
      exact ih h

theorem qlookup_qupdate_self {qs : List (Option String × BQueue)} {a : Option String}
    {q : BQueue} (q' : BQueue)
    (h : qlookup qs a = some q) : qlookup (qupdate qs a q') a = some q' := by
  induction qs with
  | nil => simp [qlookup] at h
  | cons p rest ih =>
    obtain ⟨k, q0⟩ := p
    by_cases hk : k = a
    · simp [qlookup, qupdate, hk]
    · simp [qlookup, qupdate, hk] at h ⊢
      exact ih h

theorem qlookup_qupdate_ne {qs : List (Option String × BQueue)} {a b : Option String}
    (q' : BQueue) (hne : b ≠ a) :
    qlookup (qupdate qs a q') b = qlookup qs b := by
  induction qs with
  | nil => simp [qupdate]
  | cons p rest ih =>
    obtain ⟨k, q0⟩ := p
    by_cases hk : k = a
    · subst hk
      simp [qupdate, qlookup, Ne.symm hne]
    · by_cases hb : k = b <;> simp [qupdate, qlookup, hk, hb, hne, ih]

theorem qupdate_of_lookup_none {qs : List (Option String × BQueue)}
    {a : Option String} (q' : BQueue)
    (h : qlookup qs a = none) : qupdate qs a q' = qs := by
  induction qs with
  | nil => rfl
  | cons p rest ih =>
    obtain ⟨k, q0⟩ := p
    by_cases hk : k = a
    · simp [qlookup, hk] at h
    · simp [qlookup, hk] at h
      simp [qupdate, hk, ih h]

theorem llookup_append_some {ls : List (Nat × LinkSt)} {i : Nat} {l : LinkSt}
    (t : List (Nat × LinkSt))
    (h : llookup ls i = some l) : llookup (ls ++ t) i = some l := by
  induction ls with
  | nil => simp [llookup] at h
  | cons p rest ih =>
    obtain ⟨k, l0⟩ := p
    by_cases hk : k = i
    · simpa [llookup, hk] using h
    · simp [llookup, hk] at h ⊢
      exact ih h

/-! ## forward_messages drains min(credit, backlog) in FIFO order -/

theorem forwardLoop_eq (lid : Nat) :
    ∀ (c : Nat) (msgs : List BMessage) (dlv : List (Nat × BMessage)),
    forwardLoop lid c msgs dlv =
      (c - min c msgs.length, msgs.drop c,
       dlv ++ (msgs.take c).map (fun m => (lid, m))) := by
  intro c
  induction c with
  | zero => intro msgs dlv; simp [forwardLoop]
  | succ c ih =>
    intro msgs dlv
    cases msgs with
    | nil => simp [forwardLoop]
    | cons m rest =>
      simp [forwardLoop, ih, Nat.succ_min_succ, Nat.succ_sub_succ]

/-! ## Sanity checks on the broker model (concrete evaluation) -/

example :
    (brokerRun [.linkOpening ⟨0, true, false, some "q0", "u", none⟩]).queues =
      [(some "q0", ⟨[], [0], [], []⟩)] := by decide

example :
    (brokerRun
      [.linkOpening ⟨1, false, false, none, "u", some "q0"⟩,
       .linkOpening ⟨0, true, false, some "q0", "u", none⟩,
       .flow 0 2,
       .message 1 "hello"]).queues =
      [(some "q0", ⟨[], [0], [⟨0, "hello"⟩], [(0, ⟨0, "hello"⟩)]⟩)] := by decide

example :
    (brokerRun
      [.linkOpening ⟨1, false, false, none, "u", some "q0"⟩,
       .message 1 "a",
       .message 1 "b",
       .linkOpening ⟨0, true, false, some "q0", "u", none⟩,
       .flow 0 1,
       .sendable 0]).queues =
      [(some "q0", ⟨[⟨1, "b"⟩], [0], [⟨0, "a"⟩, ⟨1, "b"⟩], [(0, ⟨0, "a"⟩)]⟩)] := by
  decide

/-! ## Frame property: messages leave a queue's FIFO only through
`link.send` inside `forward_messages` -/

/-- How one queue may evolve across a broker step: the delivery log and
the stored log only grow (by `sent` and `stored`), and the FIFO change is
fully accounted for by them: what was removed is exactly what was sent,
what was added is exactly what was stored. -/
def sendOnly (q q' : BQueue) : Prop :=
  ∃ sent stored,
    q'.delivered = q.delivered ++ sent ∧
    q'.storedLog = q.storedLog ++ stored ∧
    sent.map Prod.snd ++ q'.messages = q.messages ++ stored

theorem sendOnly_refl (q : BQueue) : sendOnly q q :=
  ⟨[], [], by simp, by simp, by simp⟩

theorem sendOnly_trans {q q' q'' : BQueue}
    (h1 : sendOnly q q') (h2 : sendOnly q' q'') : sendOnly q q'' := by
  obtain ⟨s1, t1, hd1, hs1, hm1⟩ := h1
  obtain ⟨s2, t2, hd2, hs2, hm2⟩ := h2
  refine ⟨s1 ++ s2, t1 ++ t2, ?_, ?_, ?_⟩
  · rw [hd2, hd1, List.append_assoc]
  · rw [hs2, hs1, List.append_assoc]
  · calc (s1 ++ s2).map Prod.snd ++ q''.messages
        = s1.map Prod.snd ++ (s2.map Prod.snd ++ q''.messages) := by
          simp [List.append_assoc]
      _ = s1.map Prod.snd ++ (q'.messages ++ t2) := by rw [hm2]
      _ = (s1.map Prod.snd ++ q'.messages) ++ t2 := by rw [List.append_assoc]
      _ = (q.messages ++ t1) ++ t2 := by rw [hm1]
      _ = q.messages ++ (t1 ++ t2) := by rw [List.append_assoc]

/-- Every queue present before a step is present after it, evolved per
`sendOnly`. -/
def brokerFrame (st st' : Broker) : Prop :=
  ∀ a q, qlookup st.queues a = some q →
    ∃ q', qlookup st'.queues a = some q' ∧ sendOnly q q'

theorem brokerFrame_refl (st : Broker) : brokerFrame st st :=
  fun _ q h => ⟨q, h, sendOnly_refl q⟩

theorem brokerFrame_trans {st st' st'' : Broker}
    (h1 : brokerFrame st st') (h2 : brokerFrame st' st'') :
    brokerFrame st st'' := by
  intro a q h
  obtain ⟨q', hl', hs'⟩ := h1 a q h
  obtain ⟨q'', hl'', hs''⟩ := h2 a q' hl'
  exact ⟨q'', hl'', sendOnly_trans hs' hs''⟩

theorem brokerFrame_of_queues_eq {st st' : Broker}
    (h : st'.queues = st.queues) : brokerFrame st st' := by
  intro a q hl
  exact ⟨q, by rw [h]; exact hl, sendOnly_refl q⟩

theorem qlookup_append_none {qs : List (Option String × BQueue)} {b : Option String}
    (t : List (Option String × BQueue))
    (h : qlookup qs b = none) : qlookup (qs ++ t) b = qlookup t b := by
  induction qs with
  | nil => simp
  | cons p rest ih =>
    obtain ⟨k, q0⟩ := p
    by_cases hk : k = b
    · simp [qlookup, hk] at h
    · simp [qlookup, hk] at h ⊢
      exact ih h

theorem getQueue_lookup (st : Broker) (a : Option String) :
    qlookup (getQueue st a).1.queues a = some (getQueue st a).2 := by
  unfold getQueue
  cases h : qlookup st.queues a with
  | some q => simp [h]
  | none => simp [h, qlookup_append_none _ h, qlookup]

theorem brokerFrame_getQueue (st : Broker) (a : Option String) :
    brokerFrame st (getQueue st a).1 := by
  unfold getQueue
  cases h : qlookup st.queues a with
  | some q => exact brokerFrame_refl st
  | none =>
    intro b qb hb
    exact ⟨qb, qlookup_append_some _ hb, sendOnly_refl qb⟩

theorem brokerFrame_qupdate {st : Broker} {a : Option String} {q q1 : BQueue}
    (hq : qlookup st.queues a = some q) (hso : sendOnly q q1)
    (links' : List (Nat × LinkSt)) (nm' : Nat) :
    brokerFrame st ⟨qupdate st.queues a q1, links', nm'⟩ := by
  intro b qb hb
  by_cases hba : b = a
  · subst hba
    rw [hb] at hq
    obtain rfl : qb = q := by injection hq
    exact ⟨q1, qlookup_qupdate_self q1 hb, hso⟩
  · refine ⟨qb, ?_, sendOnly_refl qb⟩
    show qlookup (qupdate st.queues a q1) b = some qb
    rw [qlookup_qupdate_ne q1 hba]
    exact hb

theorem brokerFrame_forwardMessages (st : Broker) (a : Option String) (lid : Nat) :
    brokerFrame st (forwardMessages st a lid).1 := by
  unfold forwardMessages
  cases hq : qlookup st.queues a with
  | none => exact brokerFrame_refl st
  | some q =>
    cases hl : llookup st.links lid with
    | none => exact brokerFrame_refl st
    | some l =>
      by_cases hs : l.isSender
      · simp only [hs, if_true]
        refine brokerFrame_qupdate hq ?_ _ _
        refine ⟨(q.messages.take l.credit).map (fun m => (lid, m)), [], ?_, by simp, ?_⟩
        · simp [forwardLoop_eq]
        · simp [forwardLoop_eq, List.map_map, Function.comp]
      · simp only [hs, if_false]
        exact brokerFrame_refl st

theorem brokerFrame_forwardAll (a : Option String) :
    ∀ (cons : List Nat) (st : Broker), brokerFrame st (forwardAll st a cons).1 := by
  intro cons
  induction cons with
  | nil => intro st; exact brokerFrame_refl st
  | cons lid rest ih =>
    intro st
    show brokerFrame st (forwardAll st a (lid :: rest)).1
    unfold forwardAll
    cases hf : forwardMessages st a lid with
    | mk st1 e =>
      have h1 : brokerFrame st st1 := by
        have := brokerFrame_forwardMessages st a lid
        rwa [hf] at this
      cases e with
      | none => exact brokerFrame_trans h1 (ih st1)
      | some err => exact h1

theorem brokerFrame_storeForward (st : Broker) (tgt : Option String)
    (body : String) (cons : List Nat) :
    brokerFrame st
      (forwardAll
        { (getQueue st tgt).1 with
          queues := qupdate (getQueue st tgt).1.queues tgt
            ({ (getQueue st tgt).2 with
               messages := (getQueue st tgt).2.messages ++
                 [⟨(getQueue st tgt).1.nextMid, body⟩],
               storedLog := (getQueue st tgt).2.storedLog ++
                 [⟨(getQueue st tgt).1.nextMid, body⟩] }),
          nextMid := (getQueue st tgt).1.nextMid + 1 } tgt cons).1 := by
  refine brokerFrame_trans (brokerFrame_getQueue st tgt) ?_
  refine brokerFrame_trans ?_ (brokerFrame_forwardAll tgt cons _)
  refine brokerFrame_qupdate (getQueue_lookup st tgt) ?_ _ _
  exact ⟨[], [⟨(getQueue st tgt).1.nextMid, body⟩], by simp, by simp, by simp⟩

theorem brokerFrame_onMessage (st : Broker) (lid : Nat) (body : String) :
    brokerFrame st (onMessage st lid body).1 :=
  brokerFrame_storeForward st _ body _

theorem brokerFrame_removeConsumers :
    ∀ (lids : List Nat) (st : Broker), brokerFrame st (removeConsumers st lids).1 := by
  intro lids
  induction lids with
  | nil => intro st; exact brokerFrame_refl st
  | cons lid rest ih =>
    intro st
    show brokerFrame st (removeConsumers st (lid :: rest)).1
    unfold removeConsumers
    cases hl : llookup st.links lid with
    | none => exact ih st
    | some l =>
      by_cases hs : l.isSender
      · simp only [hs, if_true]
        cases hq : qlookup st.queues l.sourceAddr with
        | none => exact brokerFrame_refl st
        | some q =>
          refine brokerFrame_trans ?_ (ih _)
          refine brokerFrame_qupdate hq ?_ _ _
          exact ⟨[], [], by simp, by simp, by simp⟩
      · simp only [hs, if_false]
        exact ih st

theorem brokerFrame_addConsumer (st : Broker) (addr : String) (lid : Nat) :
    brokerFrame st (addConsumerStep st addr lid).1 := by
  unfold addConsumerStep
  by_cases hmem : lid ∈ (getQueue st (some addr)).2.consumers
  · rw [if_pos hmem]
    exact brokerFrame_getQueue st (some addr)
  · rw [if_neg hmem]
    refine brokerFrame_trans (brokerFrame_getQueue st (some addr)) ?_
    refine brokerFrame_qupdate (getQueue_lookup st (some addr)) ?_ _ _
    exact ⟨[], [], by simp, by simp, by simp⟩

theorem brokerFrame_onLinkOpening (st : Broker) (ev : AttachEv) :
    brokerFrame st (onLinkOpening st ev).1 := by
  unfold onLinkOpening
  split
  · exact brokerFrame_refl st
  · split
    · split
      · exact brokerFrame_refl st
      · refine brokerFrame_trans ?_ (brokerFrame_addConsumer _ _ ev.lid)
        exact brokerFrame_of_queues_eq rfl
    · split
      · exact brokerFrame_refl st
      · exact brokerFrame_of_queues_eq rfl

/-- A broker step never removes a message from any queue's FIFO except by
handing it to `link.send` inside `forward_messages` (and never removes a
queue). -/
theorem brokerFrame_bstep (st : Broker) (ev : BEvent) :
    brokerFrame st (bstep st ev) := by
  cases ev with
  | linkOpening e =>
    have hr : brokerFrame st (registerLink st e) := by
      unfold registerLink
      cases llookup st.links e.lid with
      | some _ => exact brokerFrame_refl st
      | none => exact brokerFrame_of_queues_eq rfl
    exact brokerFrame_trans hr (brokerFrame_onLinkOpening _ e)
  | linkClosing lid =>
    show brokerFrame st (onLinkClosing st lid).1
    unfold onLinkClosing
    cases llookup st.links lid with
    | none => exact brokerFrame_refl st
    | some l =>
      by_cases hs : l.isSender <;> simp [hs] <;> exact brokerFrame_refl st
  | flow lid n =>
    show brokerFrame st (match llookup st.links lid with
      | some l =>
          if l.isSender then
            { st with links := lupdate st.links lid ({ l with credit := l.credit + n }) }
          else st
      | none => st)
    split
    · split
      · exact brokerFrame_of_queues_eq rfl
      · exact brokerFrame_refl st
    · exact brokerFrame_refl st
  | sendable lid =>
    show brokerFrame st (onSendable st lid).1
    unfold onSendable
    exact brokerFrame_trans (brokerFrame_getQueue st _)
      (brokerFrame_forwardMessages _ _ _)
  | message lid body => exact brokerFrame_onMessage st lid body
  | connClosing lids => exact brokerFrame_removeConsumers lids st

/-! ## Broker invariants: the stored log splits into deliveries plus
backlog, and each stored message is delivered at most once -/

/-- A queue's full history reconstructed from its ghost logs: what was
handed to `link.send`, in order, followed by what still sits in the
FIFO. -/
def BQueue.line (q : BQueue) : List BMessage :=
  q.delivered.map Prod.snd ++ q.messages

/-- The ghost identities a queue currently accounts for. -/
def BQueue.mids (q : BQueue) : List Nat := q.line.map BMessage.mid

/-- All ghost identities accounted for across the queue registry. -/
def allMids (st : Broker) : List Nat :=
  (st.queues.map (fun p => p.2.mids)).flatten

/-- Every `link.send` the broker ever performed, across all queues. -/
def allDeliveries (st : Broker) : List (Nat × BMessage) :=
  (st.queues.map (fun p => p.2.delivered)).flatten

/-- Per-queue accounting: everything ever stored is exactly what was
delivered followed by what remains. -/
def inv1 (st : Broker) : Prop :=
  ∀ a q, qlookup st.queues a = some q → q.storedLog = q.line

/-- The broker invariant: per-queue accounting, no ghost identity is
accounted for twice anywhere, and all identities are below the fresh
counter. -/
def brokerInv (st : Broker) : Prop :=
  inv1 st ∧ (allMids st).Nodup ∧ ∀ m ∈ allMids st, m < st.nextMid

theorem lookup_qupdate_forall {P : BQueue → Prop}
    {qs : List (Option String × BQueue)} {a : Option String} {q' : BQueue}
    (hinv : ∀ b qb, qlookup qs b = some qb → P qb) (hq' : P q') :
    ∀ b qb, qlookup (qupdate qs a q') b = some qb → P qb := by
  intro b qb hb
  by_cases hba : b = a
  · subst hba
    cases hqa : qlookup qs b with
    | none =>
      rw [qupdate_of_lookup_none _ hqa] at hb
      exact hinv _ _ hb
    | some q0 =>
      rw [qlookup_qupdate_self q' hqa] at hb
      obtain rfl : q' = qb := by injection hb
      exact hq'
  · rw [qlookup_qupdate_ne q' hba] at hb
    exact hinv _ _ hb

theorem lookup_append_forall {P : BQueue → Prop}
    {qs t : List (Option String × BQueue)}
    (hqs : ∀ b qb, qlookup qs b = some qb → P qb)
    (ht : ∀ b qb, qlookup t b = some qb → P qb) :
    ∀ b qb, qlookup (qs ++ t) b = some qb → P qb := by
  intro b qb hb
  cases h : qlookup qs b with
  | some q0 =>
    rw [qlookup_append_some t h] at hb
    obtain rfl : q0 = qb := by injection hb
    exact hqs _ _ h
  | none =>
    rw [qlookup_append_none t h] at hb
    exact ht _ _ hb

theorem flatten_qupdate (f : BQueue → List Nat) :
    ∀ (qs : List (Option String × BQueue)) (a : Option String) (q q' : BQueue),
    qlookup qs a = some q →
    ∃ pre suf,
      (qs.map (fun p => f p.2)).flatten = pre ++ f q ++ suf ∧
      ((qupdate qs a q').map (fun p => f p.2)).flatten = pre ++ f q' ++ suf := by
  intro qs
  induction qs with
  | nil => intro a q q' h; simp [qlookup] at h
  | cons p rest ih =>
    intro a q q' h
    obtain ⟨k, q0⟩ := p
    by_cases hk : k = a
    · subst hk
      simp only [qlookup, if_pos rfl] at h
      obtain rfl : q0 = q := by injection h
      refine ⟨[], (rest.map (fun p => f p.2)).flatten, by simp, ?_⟩
      simp [qupdate]
    · simp only [qlookup, if_neg hk] at h
      obtain ⟨pre, suf, h1, h2⟩ := ih a q q' h
      refine ⟨f q0 ++ pre, suf, ?_, ?_⟩
      · simp [h1, List.append_assoc]
      · simp [qupdate, hk, h2, List.append_assoc]

/-- A step that leaves the per-queue accounting, the accounted
identities and the fresh counter untouched. -/
def quietStep (st st' : Broker) : Prop :=
  (inv1 st → inv1 st') ∧ allMids st' = allMids st ∧ st'.nextMid = st.nextMid

theorem quietStep_refl (st : Broker) : quietStep st st :=
  ⟨id, rfl, rfl⟩

theorem quietStep_trans {st st' st'' : Broker}
    (h1 : quietStep st st') (h2 : quietStep st' st'') : quietStep st st'' :=
  ⟨fun h => h2.1 (h1.1 h), h2.2.1.trans h1.2.1, h2.2.2.trans h1.2.2⟩

theorem quietStep_of_queues_eq {st st' : Broker}
    (hq : st'.queues = st.queues) (hn : st'.nextMid = st.nextMid) :
    quietStep st st' := by
  refine ⟨fun hi a q h => hi a q ?_, ?_, hn⟩
  · rwa [hq] at h
  · simp [allMids, hq]

theorem brokerInv_of_quiet {st st' : Broker}
    (h : brokerInv st) (hq : quietStep st st') : brokerInv st' := by
  obtain ⟨h1, h2, h3⟩ := h
  refine ⟨hq.1 h1, ?_, ?_⟩
  · rw [hq.2.1]; exact h2
  · intro m hm
    rw [hq.2.1] at hm
    rw [hq.2.2]
    exact h3 m hm

theorem quietStep_getQueue (st : Broker) (a : Option String) :
    quietStep st (getQueue st a).1 := by
  unfold getQueue
  cases h : qlookup st.queues a with
  | some q => exact quietStep_refl st
  | none =>
    refine ⟨?_, ?_, rfl⟩
    · intro hi
      refine lookup_append_forall hi ?_
      intro b qb hb
      by_cases hab : a = b
      · simp only [qlookup, if_pos hab] at hb
        obtain rfl : emptyQueue = qb := by injection hb
        rfl
      · simp [qlookup, hab] at hb
    · simp [allMids, BQueue.mids, BQueue.line, emptyQueue]

/-- A `qupdate` that preserves the updated queue's stored log and line is
quiet, provided the new queue's stored log matches its line whenever the
old one's did. -/
theorem quietStep_qupdate {st : Broker} {a : Option String} {q : BQueue}
    (hq : qlookup st.queues a = some q) (q' : BQueue)
    (hline : q'.line = q.line) (hlog : q'.storedLog = q.storedLog)
    (links' : List (Nat × LinkSt)) :
    quietStep st ⟨qupdate st.queues a q', links', st.nextMid⟩ := by
  obtain ⟨pre, suf, hold, hnew⟩ := flatten_qupdate BQueue.mids st.queues a q q' hq
  refine ⟨?_, ?_, rfl⟩
  · intro hi
    refine lookup_qupdate_forall hi ?_
    rw [hlog, hline]
    exact hi a q hq
  · show (_ : List Nat) = _
    rw [show allMids ⟨qupdate st.queues a q', links', st.nextMid⟩ =
          ((qupdate st.queues a q').map (fun p => p.2.mids)).flatten from rfl,
        hnew, show allMids st = (st.queues.map (fun p => p.2.mids)).flatten from rfl,
        hold]
    have : q'.mids = q.mids := by simp [BQueue.mids, hline]
    rw [this]

theorem quietStep_forwardMessages (st : Broker) (a : Option String) (lid : Nat) :
    quietStep st (forwardMessages st a lid).1 := by
  unfold forwardMessages
  split
  · exact quietStep_refl st
  · next q hq =>
    split
    · exact quietStep_refl st
    · next l hl =>
      split
      · refine quietStep_qupdate hq
          ({ q with
             messages := (forwardLoop lid l.credit q.messages q.delivered).2.1,
             delivered := (forwardLoop lid l.credit q.messages q.delivered).2.2 })
          ?_ rfl _
        simp [forwardLoop_eq, BQueue.line, List.map_map, Function.comp,
              List.append_assoc, List.take_append_drop]
      · exact quietStep_refl st

theorem quietStep_forwardAll (a : Option String) :
    ∀ (cons : List Nat) (st : Broker), quietStep st (forwardAll st a cons).1 := by
  intro cons
  induction cons with
  | nil => intro st; exact quietStep_refl st
  | cons lid rest ih =>
    intro st
    show quietStep st (forwardAll st a (lid :: rest)).1
    unfold forwardAll
    cases hf : forwardMessages st a lid with
    | mk st1 e =>
      have h1 : quietStep st st1 := by
        have := quietStep_forwardMessages st a lid
        rwa [hf] at this
      cases e with
      | none => exact quietStep_trans h1 (ih st1)
      | some err => exact h1

theorem quietStep_addConsumerStep (st : Broker) (addr : String) (lid : Nat) :
    quietStep st (addConsumerStep st addr lid).1 := by
  unfold addConsumerStep
  by_cases hmem : lid ∈ (getQueue st (some addr)).2.consumers
  · rw [if_pos hmem]
    exact quietStep_getQueue st (some addr)
  · rw [if_neg hmem]
    refine quietStep_trans (quietStep_getQueue st (some addr)) ?_
    exact quietStep_qupdate (getQueue_lookup st (some addr))
      ({ (getQueue st (some addr)).2 with
         consumers := (getQueue st (some addr)).2.consumers ++ [lid] }) rfl rfl _

theorem quietStep_removeConsumers :
    ∀ (lids : List Nat) (st : Broker), quietStep st (removeConsumers st lids).1 := by
  intro lids
  induction lids with
  | nil => intro st; exact quietStep_refl st
  | cons lid rest ih =>
    intro st
    show quietStep st (removeConsumers st (lid :: rest)).1
    unfold removeConsumers
    split
    · exact ih st
    · split
      · split
        · exact quietStep_refl st
        · next q hq =>
          refine quietStep_trans ?_ (ih _)
          exact quietStep_qupdate hq
            ({ q with consumers := q.consumers.erase lid }) rfl rfl _
      · exact ih st

theorem quietStep_onLinkOpening (st : Broker) (ev : AttachEv) :
    quietStep st (onLinkOpening st ev).1 := by
  unfold onLinkOpening
  split
  · exact quietStep_refl st
  · split
    · split
      · exact quietStep_refl st
      · refine quietStep_trans ?_ (quietStep_addConsumerStep _ _ ev.lid)
        exact quietStep_of_queues_eq rfl rfl
    · split
      · exact quietStep_refl st
      · exact quietStep_of_queues_eq rfl rfl

/-- Storing a fresh message preserves the broker invariant: the fresh
identity cannot collide with any accounted identity. -/
theorem brokerInv_store {st : Broker} {a : Option String} {q : BQueue}
    (body : String) (hq : qlookup st.queues a = some q) (hinv : brokerInv st) :
    brokerInv { st with
      queues := qupdate st.queues a
        ({ q with messages := q.messages ++ [⟨st.nextMid, body⟩],
                  storedLog := q.storedLog ++ [⟨st.nextMid, body⟩] }),
      nextMid := st.nextMid + 1 } := by
  obtain ⟨h1, h2, h3⟩ := hinv
  obtain ⟨pre, suf, hold, hnew⟩ := flatten_qupdate BQueue.mids st.queues a q
    ({ q with messages := q.messages ++ [⟨st.nextMid, body⟩],
              storedLog := q.storedLog ++ [⟨st.nextMid, body⟩] }) hq
  have hq1mids :
      BQueue.mids ({ q with messages := q.messages ++ [⟨st.nextMid, body⟩],
                            storedLog := q.storedLog ++ [⟨st.nextMid, body⟩] }) =
        q.mids ++ [st.nextMid] := by
    simp [BQueue.mids, BQueue.line, List.append_assoc]
  have holdMids : allMids st = pre ++ q.mids ++ suf := hold
  have hnewMids :
      allMids { st with
        queues := qupdate st.queues a
          ({ q with messages := q.messages ++ [⟨st.nextMid, body⟩],
                    storedLog := q.storedLog ++ [⟨st.nextMid, body⟩] }),
        nextMid := st.nextMid + 1 } = pre ++ (q.mids ++ [st.nextMid]) ++ suf := by
    rw [show allMids { st with
        queues := qupdate st.queues a
          ({ q with messages := q.messages ++ [⟨st.nextMid, body⟩],
                    storedLog := q.storedLog ++ [⟨st.nextMid, body⟩] }),
        nextMid := st.nextMid + 1 } =
      ((qupdate st.queues a
          ({ q with messages := q.messages ++ [⟨st.nextMid, body⟩],
                    storedLog := q.storedLog ++ [⟨st.nextMid, body⟩] })).map
        (fun p => p.2.mids)).flatten from rfl, hnew, hq1mids]
  have hfresh : st.nextMid ∉ allMids st := by
    intro hmem
    exact absurd (h3 _ hmem) (lt_irrefl _)
  refine ⟨?_, ?_, ?_⟩
  · refine lookup_qupdate_forall h1 ?_
    show q.storedLog ++ [(⟨st.nextMid, body⟩ : BMessage)] = _
    rw [h1 a q hq]
    simp [BQueue.line, List.append_assoc]
  · rw [hnewMids]
    have hperm : (pre ++ (q.mids ++ [st.nextMid]) ++ suf).Perm
        (st.nextMid :: (pre ++ q.mids ++ suf)) := by
      have he : pre ++ (q.mids ++ [st.nextMid]) ++ suf =
          (pre ++ q.mids) ++ st.nextMid :: suf := by
        simp [List.append_assoc]
      rw [he]
      exact List.perm_middle
    rw [hperm.nodup_iff]
    refine List.nodup_cons.mpr ⟨?_, ?_⟩
    · rw [← holdMids]; exact hfresh
    · rw [← holdMids]; exact h2
  · intro m hm
    rw [hnewMids] at hm
    have : m ∈ pre ++ q.mids ++ suf ∨ m = st.nextMid := by
      simp only [List.mem_append] at hm ⊢
      rcases hm with (hp | hq' | hm') | hsuf
      · exact Or.inl (Or.inl (Or.inl hp))
      · exact Or.inl (Or.inl (Or.inr hq'))
      · simp only [List.mem_singleton] at hm'
        exact Or.inr hm'
      · exact Or.inl (Or.inr hsuf)
    rcases this with hmem | rfl
    · rw [← holdMids] at hmem
      exact Nat.lt_succ_of_lt (h3 m hmem)
    · exact Nat.lt_succ_self _

theorem brokerInv_onMessage (st : Broker) (lid : Nat) (body : String)
    (h : brokerInv st) : brokerInv (onMessage st lid body).1 := by
  have hinvP : ∀ (tgt : Option String), brokerInv
      (forwardAll
        { (getQueue st tgt).1 with
          queues := qupdate (getQueue st tgt).1.queues tgt
            ({ (getQueue st tgt).2 with
               messages := (getQueue st tgt).2.messages ++
                 [⟨(getQueue st tgt).1.nextMid, body⟩],
               storedLog := (getQueue st tgt).2.storedLog ++
                 [⟨(getQueue st tgt).1.nextMid, body⟩] }),
          nextMid := (getQueue st tgt).1.nextMid + 1 } tgt
        (getQueue st tgt).2.consumers).1 := by
    intro tgt
    have hg : brokerInv (getQueue st tgt).1 :=
      brokerInv_of_quiet h (quietStep_getQueue st tgt)
    have hs : brokerInv
        { (getQueue st tgt).1 with
          queues := qupdate (getQueue st tgt).1.queues tgt
            ({ (getQueue st tgt).2 with
               messages := (getQueue st tgt).2.messages ++
                 [⟨(getQueue st tgt).1.nextMid, body⟩],
               storedLog := (getQueue st tgt).2.storedLog ++
                 [⟨(getQueue st tgt).1.nextMid, body⟩] }),
          nextMid := (getQueue st tgt).1.nextMid + 1 } :=
      brokerInv_store body (getQueue_lookup st tgt) hg
    exact brokerInv_of_quiet hs (quietStep_forwardAll tgt _ _)
  exact hinvP _

/-- Every broker step preserves the broker invariant. -/
theorem brokerInv_bstep (st : Broker) (ev : BEvent)
    (h : brokerInv st) : brokerInv (bstep st ev) := by
  cases ev with
  | linkOpening e =>
    have hr : quietStep st (registerLink st e) := by
      unfold registerLink
      cases llookup st.links e.lid with
      | some _ => exact quietStep_refl st
      | none => exact quietStep_of_queues_eq rfl rfl
    exact brokerInv_of_quiet h
      (quietStep_trans hr (quietStep_onLinkOpening _ e))
  | linkClosing lid =>
    refine brokerInv_of_quiet h ?_
    show quietStep st (onLinkClosing st lid).1
    unfold onLinkClosing
    split
    · exact quietStep_refl st
    · split <;> exact quietStep_refl st
  | flow lid n =>
    refine brokerInv_of_quiet h ?_
    show quietStep st (match llookup st.links lid with
      | some l =>
          if l.isSender then
            { st with links := lupdate st.links lid ({ l with credit := l.credit + n }) }
          else st
      | none => st)
    split
    · split
      · exact quietStep_of_queues_eq rfl rfl
      · exact quietStep_refl st
    · exact quietStep_refl st
  | sendable lid =>
    refine brokerInv_of_quiet h ?_
    show quietStep st (onSendable st lid).1
    unfold onSendable
    exact quietStep_trans (quietStep_getQueue st _)
      (quietStep_forwardMessages _ _ _)
  | message lid body => exact brokerInv_onMessage st lid body h
  | connClosing lids =>
    exact brokerInv_of_quiet h (quietStep_removeConsumers lids st)

theorem brokerInv_init : brokerInv brokerInit := by
  refine ⟨?_, ?_, ?_⟩
  · intro a q h
    simp [brokerInit, qlookup] at h
  · simp [allMids, brokerInit]
  · intro m hm
    simp [allMids, brokerInit] at hm

/-- The broker invariant holds in every reachable state. -/
theorem brokerInv_run (evs : List BEvent) : brokerInv (brokerRun evs) := by
  have hgen : ∀ (evs : List BEvent) (st : Broker), brokerInv st →
      brokerInv (evs.foldl bstep st) := by
    intro evs
    induction evs with
    | nil => intro st h; exact h
    | cons ev rest ih =>
      intro st h
      exact ih (bstep st ev) (brokerInv_bstep st ev h)
  exact hgen evs brokerInit brokerInv_init

theorem deliveredMids_sublist (st : Broker) :
    ((allDeliveries st).map (fun d => d.2.mid)).Sublist (allMids st) := by
  have hq : ∀ (q : BQueue),
      (q.delivered.map (fun d => d.2.mid)).Sublist q.mids := by
    intro q
    have hm : q.mids =
        q.delivered.map (fun d => d.2.mid) ++ q.messages.map BMessage.mid := by
      simp [BQueue.mids, BQueue.line, List.map_map, Function.comp]
    rw [hm]
    exact List.sublist_append_left _ _
  have hgen : ∀ (qs : List (Option String × BQueue)),
      (((qs.map (fun p => p.2.delivered)).flatten).map (fun d => d.2.mid)).Sublist
        ((qs.map (fun p => p.2.mids)).flatten) := by
    intro qs
    induction qs with
    | nil => simp
    | cons p rest ih =>
      simp only [List.map_cons, List.flatten_cons, List.map_append]
      exact List.Sublist.append (hq p.2) ih
  exact hgen st.queues

/-! ## Claim theorems about the broker -/

/-- C1 (code defect).  `_BrokerHandler.on_link_closing` is specified to
look the queue up by the detaching sender's local source address and
remove the consumer, idempotently and without raising; but the code reads
the unbound name `link` (instead of `event.link`), so for every attached
sender link the handler raises NameError before touching any state: the
consumer is never removed and the handler never completes normally. -/
theorem c1_link_closing_raises (st : Broker) (lid : Nat) (l : LinkSt)
    (hl : llookup st.links lid = some l) (hs : l.isSender = true) :
    onLinkClosing st lid = (st, some BErr.nameError) := by
  simp [onLinkClosing, hl, hs]

/-- Witness for C1: a broker with one attached consumer of queue `q0`;
detaching it raises NameError and leaves the state (with the consumer
still registered) unchanged. -/
theorem c1_witness :
    onLinkClosing (brokerRun [.linkOpening ⟨0, true, false, some "q0", "u", none⟩]) 0 =
      (brokerRun [.linkOpening ⟨0, true, false, some "q0", "u", none⟩],
       some BErr.nameError) :=
  c1_link_closing_raises _ 0 ⟨true, 0, some "q0", none⟩ (by decide) rfl

/-- C2.  `forward_messages(link)` repeatedly pops the head message of the
FIFO and hands it to `link.send` while the link has credit and the FIFO
is non-empty, stopping as soon as either side is exhausted: it transmits
exactly the first `min(credit, backlog)` messages, in FIFO order, and
leaves the rest.  Moreover no broker event removes a message from any
queue's FIFO other than by handing it to `link.send` inside
`forward_messages`: across any step, a queue's FIFO change is fully
accounted for by the messages appended to its delivery log (`sent`) and
the messages newly stored (`stored`). -/
theorem c2_forward_drains_and_nothing_else_dequeues :
    (∀ (lid c : Nat) (msgs : List BMessage) (dlv : List (Nat × BMessage)),
      forwardLoop lid c msgs dlv =
        (c - min c msgs.length, msgs.drop c,
         dlv ++ (msgs.take c).map (fun m => (lid, m)))) ∧
    (∀ (st : Broker) (ev : BEvent) (a : Option String) (q : BQueue),
      qlookup st.queues a = some q →
      ∃ q' sent stored,
        qlookup (bstep st ev).queues a = some q' ∧
        q'.delivered = q.delivered ++ sent ∧
        q'.storedLog = q.storedLog ++ stored ∧
        sent.map Prod.snd ++ q'.messages = q.messages ++ stored) := by
  refine ⟨fun lid c msgs dlv => forwardLoop_eq lid c msgs dlv, ?_⟩
  intro st ev a q h
  obtain ⟨q', hl, sent, stored, hd, hs, hm⟩ := brokerFrame_bstep st ev a q h
  exact ⟨q', sent, stored, hl, hd, hs, hm⟩

/-- Witness for C2: the frame part applied to a broker holding queue `q0`
and a `flow` event. -/
theorem c2_witness :
    ∃ q' sent stored,
      qlookup (bstep (brokerRun [.linkOpening ⟨0, true, false, some "q0", "u", none⟩])
          (.flow 0 1)).queues (some "q0") = some q' ∧
      q'.delivered = ([] : List (Nat × BMessage)) ++ sent ∧
      q'.storedLog = ([] : List BMessage) ++ stored ∧
      sent.map Prod.snd ++ q'.messages = ([] : List BMessage) ++ stored :=
  c2_forward_drains_and_nothing_else_dequeues.2
    (brokerRun [.linkOpening ⟨0, true, false, some "q0", "u", none⟩])
    (.flow 0 1) (some "q0") ⟨[], [0], [], []⟩ (by decide)

/-- C3.  Over any run of the broker, each stored message (identified by
its ghost arrival identity) is handed to at most one consumer link —
competing-consumer delivery, never broadcast — even though `on_message`
runs `forward_messages` over every consumer of the queue in subscription
order: the sequence of all deliveries ever performed carries no identity
twice, so any two deliveries of the same stored message are one and the
same delivery (in particular, same consumer). -/
theorem c3_competing_consumers (evs : List BEvent) :
    ((allDeliveries (brokerRun evs)).map (fun d => d.2.mid)).Nodup ∧
    ∀ d1, d1 ∈ allDeliveries (brokerRun evs) →
    ∀ d2, d2 ∈ allDeliveries (brokerRun evs) →
      d1.2.mid = d2.2.mid → d1 = d2 := by
  have hnodup := (brokerInv_run evs).2.1
  have h1 : ((allDeliveries (brokerRun evs)).map (fun d => d.2.mid)).Nodup :=
    List.Nodup.sublist (deliveredMids_sublist (brokerRun evs)) hnodup
  exact ⟨h1, fun d1 h1m d2 h2m heq => List.inj_on_of_nodup_map h1 h1m h2m heq⟩

/-- Witness for C3: in a run that delivers one message, the two
quantified deliveries with equal identities coincide. -/
theorem c3_witness :
    ((0 : Nat), (⟨0, "hello"⟩ : BMessage)) = ((0 : Nat), (⟨0, "hello"⟩ : BMessage)) :=
  (c3_competing_consumers
      [.linkOpening ⟨1, false, false, none, "u", some "q0"⟩,
       .linkOpening ⟨0, true, false, some "q0", "u", none⟩,
       .flow 0 2,
       .message 1 "hello"]).2
    (0, ⟨0, "hello"⟩) (by decide) (0, ⟨0, "hello"⟩) (by decide) rfl

/-- C4.  For any queue of any reachable broker state and any single
consumer link, the sequence of message bodies handed to that consumer, in
delivery order, is a subsequence of the sequence of bodies stored on the
queue, in storage order (`store_message` appends to the tail,
`forward_messages` pops from the head). -/
theorem c4_consumer_subsequence (evs : List BEvent) (a : Option String)
    (q : BQueue) (lid : Nat)
    (h : qlookup (brokerRun evs).queues a = some q) :
    List.Sublist
      ((q.delivered.filter (fun d => d.1 == lid)).map (fun d => d.2.body))
      (q.storedLog.map BMessage.body) := by
  have hlog : q.storedLog = q.line := (brokerInv_run evs).1 a q h
  rw [hlog]
  have h1 : List.Sublist (q.delivered.filter (fun d => d.1 == lid)) q.delivered :=
    List.filter_sublist q.delivered
  refine (h1.map (fun d => d.2.body)).trans ?_
  have hm : q.line.map BMessage.body =
      q.delivered.map (fun d => d.2.body) ++ q.messages.map BMessage.body := by
    simp [BQueue.line, List.map_map, Function.comp]
  rw [hm]
  exact List.sublist_append_left _ _

/-- Witness for C4: after storing `a`, `b` and forwarding one message on
one credit, consumer 0's delivered bodies `[a]` are a subsequence of the
stored bodies `[a, b]`. -/
theorem c4_witness :
    List.Sublist
      ((([(0, ⟨0, "a"⟩)] : List (Nat × BMessage)).filter
          (fun d => d.1 == 0)).map (fun d => d.2.body))
      (([⟨0, "a"⟩, ⟨1, "b"⟩] : List BMessage).map BMessage.body) :=
  c4_consumer_subsequence
    [.linkOpening ⟨1, false, false, none, "u", some "q0"⟩,
     .message 1 "a",
     .message 1 "b",
     .linkOpening ⟨0, true, false, some "q0", "u", none⟩,
     .flow 0 1,
     .sendable 0]
    (some "q0") ⟨[⟨1, "b"⟩], [0], [⟨0, "a"⟩, ⟨1, "b"⟩], [(0, ⟨0, "a"⟩)]⟩ 0 (by decide)

theorem llookup_append_none {ls : List (Nat × LinkSt)} {i : Nat}
    (t : List (Nat × LinkSt))
    (h : llookup ls i = none) : llookup (ls ++ t) i = llookup t i := by
  induction ls with
  | nil => simp
  | cons p rest ih =>
    obtain ⟨k, l0⟩ := p
    by_cases hk : k = i
    · simp [llookup, hk] at h
    · simp [llookup, hk] at h ⊢
      exact ih h

/-- A sender attach with no remote source address (and not dynamic):
the input refuting C5 as stated. -/
def badAttach : AttachEv := ⟨0, true, false, none, "u", none⟩

/-- Counterexample for C5.  The claim says a link attach with the
required remote address absent is refused and that such a bad attach
does not take down the broker.  On this concrete input the sender path
of `on_link_opening` fails its `assert address is not None`: the handler
raises AssertionError, which §7 of the specification itself classifies
as fatal to the process ("assertion failures are fatal: the process
exits"), not as a local refusal of the one link. -/
theorem c5_counterexample :
    (onLinkOpening (registerLink brokerInit badAttach) badAttach).2 =
      some BErr.assertionError := by decide

/-- C5 (amended).  If the required remote address is absent — the remote
source for a non-dynamic sender, or the remote target for a receiver —
the attach handler fails its assertion before registering any consumer
or creating any queue: the broker's queue registry and message state are
unchanged, but the failure is a raised AssertionError (fatal per §7 of
the specification) rather than a non-fatal refusal of that link. -/
theorem c5_bad_attach_asserts (st : Broker) (ev : AttachEv)
    (hfresh : llookup st.links ev.lid = none)
    (hbad : (ev.isSender = true ∧ ev.dynamic = false ∧ ev.remoteSrc = none) ∨
            (ev.isSender = false ∧ ev.remoteTgt = none)) :
    (onLinkOpening (registerLink st ev) ev).2 = some BErr.assertionError ∧
    (bstep st (.linkOpening ev)).queues = st.queues ∧
    (bstep st (.linkOpening ev)).nextMid = st.nextMid := by
  have hreg : registerLink st ev =
      { st with links := st.links ++ [(ev.lid, ⟨ev.isSender, 0, none, none⟩)] } := by
    unfold registerLink
    rw [hfresh]
  have hlook : llookup (registerLink st ev).links ev.lid =
      some ⟨ev.isSender, 0, none, none⟩ := by
    rw [hreg]
    show llookup (st.links ++ _) ev.lid = _
    rw [llookup_append_none _ hfresh]
    simp [llookup]
  have hstep : onLinkOpening (registerLink st ev) ev =
      (registerLink st ev, some BErr.assertionError) := by
    rcases hbad with ⟨hs, hd, hr⟩ | ⟨hs, ht⟩
    · simp [onLinkOpening, hlook, hs, hd, hr]
    · simp [onLinkOpening, hlook, hs, ht]
  refine ⟨by rw [hstep], ?_, ?_⟩
  · show (onLinkOpening (registerLink st ev) ev).1.queues = st.queues
    rw [hstep, hreg]
  · show (onLinkOpening (registerLink st ev) ev).1.nextMid = st.nextMid
    rw [hstep, hreg]

/-- Witness for C5: the amended statement applied to the empty broker and
the concrete bad attach. -/
theorem c5_witness :
    (onLinkOpening (registerLink brokerInit badAttach) badAttach).2 =
        some BErr.assertionError ∧
      (bstep brokerInit (.linkOpening badAttach)).queues = brokerInit.queues ∧
      (bstep brokerInit (.linkOpening badAttach)).nextMid = brokerInit.nextMid :=
  c5_bad_attach_asserts brokerInit badAttach (by decide) (by decide)

/-! ## Sanity checks on the send-client model -/

example :
    (sendRun [0] [.readySet, .flow 0 2, .feed "a", .inputEv, .feed "b",
                  .inputEv]).sentLog = ["a", "b"] := by decide

example :
    (sendRun [0] [.readySet, .feed "a", .inputEv]).pending = [some "a"] := by
  decide

example : (sendRun [0] [.readySet, .feedSentinel, .inputEv]).closed = true := by
  decide

example :
    (sendRun [0] [.readySet, .flow 0 1, .feed "a", .inputEv, .settled,
                  .feedSentinel, .inputEv]).closed = true := by decide

/-! ## Send client: the deque discipline preserves input order -/

/-- The send-client state invariant: the bodies fed so far are exactly
the bodies transmitted followed by the real bodies still pending, in
order; and the senders deque is never empty. -/
def sendInv (st : SendSt) : Prop :=
  st.fedLog = st.sentLog ++ st.pending.filterMap id ∧ st.senders ≠ []

theorem sendInv_sendInput {st : SendSt} (m : Option String)
    (h : sendInv st) : sendInv (sendInput st m) := by
  obtain ⟨h1, h2⟩ := h
  cases m with
  | none => exact ⟨by simp [sendInput, h1], h2⟩
  | some b =>
    refine ⟨?_, h2⟩
    simp [sendInput, h1, List.filterMap_append, List.append_assoc]

theorem sendInv_sendWith {st : SendSt} (body : String)
    (rest : List (Option String)) (lid : Nat) (rotated : List Nat)
    (hp : st.pending = some body :: rest) (hr : rotated ≠ [])
    (h : sendInv st) : sendInv (sendWith st body rest lid rotated) := by
  obtain ⟨h1, h2⟩ := h
  unfold sendWith
  by_cases hc : clookup st.credits lid = 0
  · rw [if_pos hc]
    exact ⟨by simpa [hp] using h1, hr⟩
  · rw [if_neg hc]
    refine ⟨?_, hr⟩
    show st.fedLog = (st.sentLog ++ [body]) ++ rest.filterMap id
    rw [h1, hp]
    simp [List.append_assoc]

theorem sendInv_sendMessage {st : SendSt} (evLink : Option Nat)
    (h : sendInv st) : sendInv (sendMessage st evLink) := by
  unfold sendMessage
  split
  · exact h
  · split
    · exact h
    · split
      · exact h
      · next rest heq =>
        split
        · exact ⟨by simpa [heq] using h.1, h.2⟩
        · exact ⟨by simpa [heq] using h.1, h.2⟩
      · next body rest heq =>
        split
        · exact sendInv_sendWith body rest _ _ heq h.2 h
        · split
          · next hsend => exact absurd hsend h.2
          · next s srest hsend =>
            exact sendInv_sendWith body rest _ _ heq (by simp) h

/-- Definitional reduction of `sstep`. -/
theorem sstep_eq (st : SendSt) (ev : SEvent) :
    sstep st ev =
      if st.closed then st
      else
        match ev with
        | .feed body => sendInput st (some body)
        | .feedSentinel => sendInput st none
        | .inputEv => sendMessage st none
        | .sendable lid => sendMessage st (some lid)
        | .flow lid n =>
            { st with credits := cupdate st.credits lid (clookup st.credits lid + n) }
        | .settled => sendOnSettled st
        | .readySet => { st with readyFlag := true } := rfl

theorem sendInv_sendOnSettled {st : SendSt}
    (h : sendInv st) : sendInv (sendOnSettled st) := by
  show sendInv (if (st.stopRequested && (st.sentMessages == st.settledMessages + 1))
      then { st with settledMessages := st.settledMessages + 1, closed := true }
      else { st with settledMessages := st.settledMessages + 1 })
  by_cases hc : (st.stopRequested && (st.sentMessages == st.settledMessages + 1)) = true
  · rw [if_pos hc]
    exact ⟨h.1, h.2⟩
  · rw [if_neg hc]
    exact ⟨h.1, h.2⟩

theorem sendInv_sstep {st : SendSt} (ev : SEvent)
    (h : sendInv st) : sendInv (sstep st ev) := by
  rw [sstep_eq]
  by_cases hcl : st.closed = true
  · rw [if_pos hcl]
    exact h
  · rw [if_neg hcl]
    cases ev with
    | feed body => exact sendInv_sendInput (some body) h
    | feedSentinel => exact sendInv_sendInput none h
    | inputEv => exact sendInv_sendMessage none h
    | sendable lid => exact sendInv_sendMessage (some lid) h
    | flow lid n => exact ⟨h.1, h.2⟩
    | settled => exact sendInv_sendOnSettled h
    | readySet => exact ⟨h.1, h.2⟩

theorem sendInv_run (evs : List SEvent) :
    ∀ (st : SendSt), sendInv st → sendInv (evs.foldl sstep st) := by
  induction evs with
  | nil => intro st h; exact h
  | cons ev rest ih =>
    intro st h
    exact ih (sstep st ev) (sendInv_sstep ev h)

/-- C6.  In the send client, for any input sequence and any interleaving
of feeder and reactor events, the feeder pushes onto the head of the
pending deque, the dispatcher pops from the tail, and a zero-credit pop
is returned to the tail — so at every point of a run the transmitted
bodies, in transmission order, followed by the real bodies still
pending, in deque order, are exactly the bodies fed, in input order:
transmissions happen in input-stream order. -/
theorem c6_transmissions_in_input_order (s0 : Nat) (ss : List Nat)
    (evs : List SEvent) :
    (sendRun (s0 :: ss) evs).fedLog =
      (sendRun (s0 :: ss) evs).sentLog ++
        (sendRun (s0 :: ss) evs).pending.filterMap id :=
  (sendInv_run evs (sendInit (s0 :: ss)) ⟨by simp [sendInit], by simp [sendInit]⟩).1

/-! ## Send client: the sentinel halts transmission -/

/-- Once the sentinel has been popped, either stop was recorded or the
client closed. -/
def sentinelFlag (st : SendSt) : Prop :=
  st.sentinelSeen = true → (st.stopRequested = true ∨ st.closed = true)

theorem sentinelFlag_sendWith {st : SendSt} (body : String)
    (rest : List (Option String)) (lid : Nat) (rotated : List Nat)
    (h : sentinelFlag st) :
    sentinelFlag (sendWith st body rest lid rotated) := by
  unfold sendWith
  split
  · intro hs; exact h hs
  · intro hs; exact h hs

theorem sentinelFlag_sendMessage {st : SendSt} (evLink : Option Nat)
    (h : sentinelFlag st) : sentinelFlag (sendMessage st evLink) := by
  unfold sendMessage
  split
  · exact h
  · split
    · exact h
    · split
      · exact h
      · split
        · intro _; exact Or.inr rfl
        · intro _; exact Or.inl rfl
      · split
        · exact sentinelFlag_sendWith _ _ _ _ h
        · split
          · intro hs; exact h hs
          · exact sentinelFlag_sendWith _ _ _ _ h

theorem sentinelFlag_sendOnSettled {st : SendSt}
    (h : sentinelFlag st) : sentinelFlag (sendOnSettled st) := by
  show sentinelFlag
    (if (st.stopRequested && (st.sentMessages == st.settledMessages + 1))
      then { st with settledMessages := st.settledMessages + 1, closed := true }
      else { st with settledMessages := st.settledMessages + 1 })
  by_cases hc : (st.stopRequested && (st.sentMessages == st.settledMessages + 1)) = true
  · rw [if_pos hc]
    intro _; exact Or.inr rfl
  · rw [if_neg hc]
    intro hs; exact h hs

theorem sentinelFlag_sstep {st : SendSt} (ev : SEvent)
    (h : sentinelFlag st) : sentinelFlag (sstep st ev) := by
  rw [sstep_eq]
  by_cases hcl : st.closed = true
  · rw [if_pos hcl]
    exact h
  · rw [if_neg hcl]
    cases ev with
    | feed body => intro hs; exact h hs
    | feedSentinel => intro hs; exact h hs
    | inputEv => exact sentinelFlag_sendMessage none h
    | sendable lid => exact sentinelFlag_sendMessage (some lid) h
    | flow lid n => intro hs; exact h hs
    | settled => exact sentinelFlag_sendOnSettled h
    | readySet => intro hs; exact h hs

theorem sentinelFlag_run (evs : List SEvent) :
    ∀ (st : SendSt), sentinelFlag st → sentinelFlag (evs.foldl sstep st) := by
  induction evs with
  | nil => intro st h; exact h
  | cons ev rest ih =>
    intro st h
    exact ih (sstep st ev) (sentinelFlag_sstep ev h)

/-- Once stop was recorded or the client closed, a step transmits
nothing and the condition persists. -/
theorem sstep_halted {st : SendSt} (ev : SEvent)
    (h : st.stopRequested = true ∨ st.closed = true) :
    (sstep st ev).sentLog = st.sentLog ∧
    ((sstep st ev).stopRequested = true ∨ (sstep st ev).closed = true) := by
  rw [sstep_eq]
  by_cases hcl : st.closed = true
  · rw [if_pos hcl]
    exact ⟨rfl, h⟩
  · rw [if_neg hcl]
    have hstop : st.stopRequested = true := by
      rcases h with hs | hc
      · exact hs
      · exact absurd hc hcl
    have hmsg : ∀ (evLink : Option Nat),
        sendMessage st evLink = st := by
      intro evLink
      unfold sendMessage
      rw [if_pos hstop]
    cases ev with
    | feed body => exact ⟨rfl, Or.inl hstop⟩
    | feedSentinel => exact ⟨rfl, Or.inl hstop⟩
    | inputEv =>
      rw [show (match SEvent.inputEv with
          | SEvent.feed body => sendInput st (some body)
          | SEvent.feedSentinel => sendInput st none
          | SEvent.inputEv => sendMessage st none
          | SEvent.sendable lid => sendMessage st (some lid)
          | SEvent.flow lid n =>
              { st with credits := cupdate st.credits lid (clookup st.credits lid + n) }
          | SEvent.settled => sendOnSettled st
          | SEvent.readySet => { st with readyFlag := true }) =
        sendMessage st none from rfl, hmsg none]
      exact ⟨rfl, Or.inl hstop⟩
    | sendable lid =>
      rw [show (match SEvent.sendable lid with
          | SEvent.feed body => sendInput st (some body)
          | SEvent.feedSentinel => sendInput st none
          | SEvent.inputEv => sendMessage st none
          | SEvent.sendable lid => sendMessage st (some lid)
          | SEvent.flow lid n =>
              { st with credits := cupdate st.credits lid (clookup st.credits lid + n) }
          | SEvent.settled => sendOnSettled st
          | SEvent.readySet => { st with readyFlag := true }) =
        sendMessage st (some lid) from rfl, hmsg (some lid)]
      exact ⟨rfl, Or.inl hstop⟩
    | flow lid n => exact ⟨rfl, Or.inl hstop⟩
    | settled =>
      have hA : (sendOnSettled st).sentLog = st.sentLog := by
        show ((if (st.stopRequested && (st.sentMessages == st.settledMessages + 1))
            then { st with settledMessages := st.settledMessages + 1, closed := true }
            else { st with settledMessages := st.settledMessages + 1 }) :
              SendSt).sentLog = st.sentLog
        by_cases hc :
            (st.stopRequested && (st.sentMessages == st.settledMessages + 1)) = true
        · rw [if_pos hc]
        · rw [if_neg hc]
      have hB : (sendOnSettled st).stopRequested = true := by
        show ((if (st.stopRequested && (st.sentMessages == st.settledMessages + 1))
            then { st with settledMessages := st.settledMessages + 1, closed := true }
            else { st with settledMessages := st.settledMessages + 1 }) :
              SendSt).stopRequested = true
        by_cases hc :
            (st.stopRequested && (st.sentMessages == st.settledMessages + 1)) = true
        · rw [if_pos hc]
          exact hstop
        · rw [if_neg hc]
          exact hstop
      exact ⟨hA, Or.inl hB⟩
    | readySet => exact ⟨rfl, Or.inl hstop⟩

theorem halted_run (evs : List SEvent) :
    ∀ (st : SendSt), (st.stopRequested = true ∨ st.closed = true) →
      (evs.foldl sstep st).sentLog = st.sentLog := by
  induction evs with
  | nil => intro st _; rfl
  | cons ev rest ih =>
    intro st h
    obtain ⟨h1, h2⟩ := sstep_halted ev h
    show (List.foldl sstep (sstep st ev) rest).sentLog = st.sentLog
    rw [ih (sstep st ev) h2, h1]

/-- C7.  When the send client's dispatcher pops the `None` sentinel it
closes immediately when no deliveries remain unsettled
(`sent_messages == settled_messages`), and otherwise records
`stop_requested`; and in any run, once the sentinel has been popped no
further message is ever transmitted in any subsequent step. -/
theorem c7_sentinel_stops_transmission :
    (∀ (st : SendSt) (evLink : Option Nat) (rest : List (Option String)),
      st.stopRequested = false → st.readyFlag = true →
      st.pending = none :: rest →
      sendMessage st evLink =
        (if st.sentMessages = st.settledMessages then
          { st with pending := rest, closed := true, sentinelSeen := true }
         else
          { st with pending := rest, stopRequested := true,
                    sentinelSeen := true })) ∧
    (∀ (senders : List Nat) (evs0 evs1 : List SEvent),
      (sendRun senders evs0).sentinelSeen = true →
      (sendRun senders (evs0 ++ evs1)).sentLog =
        (sendRun senders evs0).sentLog) := by
  constructor
  · intro st evLink rest h1 h2 h3
    unfold sendMessage
    rw [h3]
    simp [h1, h2]
  · intro senders evs0 evs1 hseen
    have hflag : sentinelFlag (sendRun senders evs0) :=
      sentinelFlag_run evs0 (sendInit senders) (by intro hs; simp [sendInit] at hs)
    have hhalt := hflag hseen
    show ((evs0 ++ evs1).foldl sstep (sendInit senders)).sentLog = _
    rw [List.foldl_append]
    exact halted_run evs1 (sendRun senders evs0) hhalt

/-- Witness for C7: after the sentinel is popped (closing the client,
since nothing was unsettled), further feeding, credit and input events
transmit nothing. -/
theorem c7_witness :
    (sendRun [0] ([.readySet, .feedSentinel, .inputEv] ++
        [.feed "x", .flow 0 5, .inputEv])).sentLog =
      (sendRun [0] [.readySet, .feedSentinel, .inputEv]).sentLog :=
  c7_sentinel_stops_transmission.2 [0]
    [.readySet, .feedSentinel, .inputEv]
    [.feed "x", .flow 0 5, .inputEv] (by decide)

/-! ## Request client: close waits for responses, not settlement (C8) -/

example :
    (reqOnSettled ⟨[], [0], [], [], [], [], true, true, 2, 1, 2, false, []⟩).closed
      = true := by decide

example :
    (reqOnSettled ⟨[], [0], [], [], [], [], true, true, 2, 1, 1, false, []⟩).closed
      = false := by decide

/-- C8.  In the request client, `on_settled` counts the settlement but
triggers close only when stop was requested and
`sent_requests == received_responses`; the settled count never enters
the condition, so having every request settled cannot close the client
while a response is outstanding.  Likewise the sentinel branch of
`send_request` closes exactly when `sent_requests == received_responses`
and otherwise records `stop_requested`. -/
theorem c8_close_only_on_responses :
    (∀ st : ReqSt,
      (reqOnSettled st).settledRequests = st.settledRequests + 1 ∧
      ((reqOnSettled st).closed = true ↔
        (st.closed = true ∨
          (st.stopRequested = true ∧ st.sentRequests = st.receivedResponses)))) ∧
    (∀ (st : ReqSt) (rest : List (Option ReqMsg)) (evLink : Option Nat),
      st.stopRequested = false → st.readyFlag = true →
      st.requests = none :: rest →
      ((st.sentRequests = st.receivedResponses →
          sendRequest st evLink = { st with requests := rest, closed := true }) ∧
       (st.sentRequests ≠ st.receivedResponses →
          sendRequest st evLink =
            { st with requests := rest, stopRequested := true }))) := by
  constructor
  · intro st
    by_cases hc :
        (st.stopRequested && (st.sentRequests == st.receivedResponses)) = true
    · have heq : reqOnSettled st =
          { st with settledRequests := st.settledRequests + 1, closed := true } := by
        unfold reqOnSettled
        rw [if_pos hc]
      rw [heq]
      simp only [Bool.and_eq_true, beq_iff_eq] at hc
      exact ⟨rfl, by simp [hc]⟩
    · have heq : reqOnSettled st =
          { st with settledRequests := st.settledRequests + 1 } := by
        unfold reqOnSettled
        rw [if_neg hc]
      rw [heq]
      simp only [Bool.and_eq_true, beq_iff_eq, not_and] at hc
      refine ⟨rfl, ?_⟩
      constructor
      · intro hcl
        exact Or.inl hcl
      · intro hor
        rcases hor with hcl | ⟨hstop, hsr⟩
        · exact hcl
        · exact absurd hsr (hc hstop)
  · intro st rest evLink h1 h2 h3
    unfold sendRequest
    rw [h3]
    simp only [h1, h2]
    constructor
    · intro he
      simp [he]
    · intro hne
      simp [hne]

/-- Witness for C8: popping the sentinel with no outstanding responses
closes the request client at once. -/
theorem c8_witness :
    sendRequest ⟨[none], [0], [], [], [], [], true, false, 0, 0, 0, false, []⟩ none =
      ⟨[], [0], [], [], [], [], true, false, 0, 0, 0, true, []⟩ :=
  (c8_close_only_on_responses.2
      ⟨[none], [0], [], [], [], [], true, false, 0, 0, 0, false, []⟩
      [] none rfl rfl rfl).1 rfl

/-! ## Receive client: counted receipt, flush-and-close at the bound (C9) -/

theorem recvOnMessage_processed (jsonFn : String → String) (st : RecvSt)
    (srcAddr body : String)
    (hne : ¬ some st.receivedMessages = st.maxCount) :
    recvOnMessage jsonFn st srcAddr body =
      (if some (st.receivedMessages + 1) = st.maxCount then
        { st with receivedMessages := st.receivedMessages + 1,
                  output := st.output ++
                    (if st.noPrefix then [] else [srcAddr ++ ": "]) ++
                    [if st.jsonMode then jsonFn body else body] ++ ["\n"],
                  flushes := st.flushes + 1, closeRequested := true }
       else
        { st with receivedMessages := st.receivedMessages + 1,
                  output := st.output ++
                    (if st.noPrefix then [] else [srcAddr ++ ": "]) ++
                    [if st.jsonMode then jsonFn body else body] ++ ["\n"] }) := by
  unfold recvOnMessage
  rw [if_neg hne]
  by_cases hp : st.noPrefix = true
  · by_cases hr : some (st.receivedMessages + 1) = st.maxCount
    · simp [hp, hr, List.append_assoc]
    · simp [hp, hr, List.append_assoc]
  · by_cases hr : some (st.receivedMessages + 1) = st.maxCount
    · simp [hp, hr, List.append_assoc]
    · simp [hp, hr, List.append_assoc]

/-- C9.  In the receive client, when the received count is below the
bound (or the bound is unset) a delivery writes the `path: ` prefix
(suppressed under `--no-prefix`), then the body (JSON-rendered under
`--json`), then a newline, and increments the count; the sink is flushed
and close requested exactly when the incremented count reaches the
bound; and a delivery arriving when the count already equals the bound
is ignored, changing neither the count nor the output. -/
theorem c9_receive_bounded_output (jsonFn : String → String) (st : RecvSt)
    (srcAddr body : String) :
    ((st.maxCount = none ∨
        ∃ m, st.maxCount = some m ∧ st.receivedMessages < m) →
      (recvOnMessage jsonFn st srcAddr body).receivedMessages =
        st.receivedMessages + 1 ∧
      (recvOnMessage jsonFn st srcAddr body).output =
        st.output ++ (if st.noPrefix then [] else [srcAddr ++ ": "]) ++
          [if st.jsonMode then jsonFn body else body] ++ ["\n"] ∧
      (((recvOnMessage jsonFn st srcAddr body).flushes = st.flushes + 1 ∧
          (recvOnMessage jsonFn st srcAddr body).closeRequested = true) ↔
        some (st.receivedMessages + 1) = st.maxCount)) ∧
    (some st.receivedMessages = st.maxCount →
      recvOnMessage jsonFn st srcAddr body = st) := by
  constructor
  · intro hbelow
    have hne : ¬ some st.receivedMessages = st.maxCount := by
      rcases hbelow with hnone | ⟨m, hm, hlt⟩
      · rw [hnone]
        simp
      · rw [hm]
        intro hcontr
        obtain rfl : st.receivedMessages = m := by injection hcontr
        exact absurd hlt (lt_irrefl _)
    rw [recvOnMessage_processed jsonFn st srcAddr body hne]
    by_cases hr : some (st.receivedMessages + 1) = st.maxCount
    · rw [if_pos hr]
      refine ⟨rfl, rfl, ?_⟩
      simp [hr]
    · rw [if_neg hr]
      refine ⟨rfl, rfl, ?_⟩
      simp [hr]
  · intro heq
    unfold recvOnMessage
    rw [if_pos heq]

/-- Witness for C9: with bound 1 and nothing yet received, a delivery of
body `hi` from `q0` writes `q0: `, `hi`, newline, counts 1, flushes and
requests close. -/
theorem c9_witness :
    (recvOnMessage (fun s => s) ⟨0, some 1, false, false, [], 0, false⟩
        "q0" "hi").output =
      ([] : List String) ++ (if false then [] else ["q0" ++ ": "]) ++
        [if false then "hi" else "hi"] ++ ["\n"] :=
  ((c9_receive_bounded_output (fun s => s) ⟨0, some 1, false, false, [], 0, false⟩
      "q0" "hi").1 (Or.inr ⟨1, rfl, by decide⟩)).2.1

/-! ## Zero-credit pops are put back unchanged (C10) -/

/-- C10.  In both the send and the request client, when the dispatcher
pops a real (non-sentinel) message but the chosen sender has no credit,
the call transmits nothing and changes no state besides the rotation of
the senders deque that already happened: the popped item is re-appended
at the pop end, so the pending deque is exactly what it was, and the
sent counter, credits and logs are untouched.  With the event's own link
(credit callback) there is no rotation at all: the state is fully
unchanged. -/
theorem c10_zero_credit_is_noop :
    (∀ (st : SendSt) (lid : Nat) (body : String) (rest : List (Option String)),
      st.stopRequested = false → st.readyFlag = true →
      st.pending = some body :: rest → clookup st.credits lid = 0 →
      sendMessage st (some lid) = st) ∧
    (∀ (st : SendSt) (s : Nat) (srest : List Nat) (body : String)
        (rest : List (Option String)),
      st.stopRequested = false → st.readyFlag = true →
      st.pending = some body :: rest → st.senders = s :: srest →
      clookup st.credits s = 0 →
      sendMessage st none = { st with senders := srest ++ [s] }) ∧
    (∀ (st : ReqSt) (lid : Nat) (req : ReqMsg) (rest : List (Option ReqMsg)),
      st.stopRequested = false → st.readyFlag = true →
      st.requests = some req :: rest → clookup st.credits lid = 0 →
      sendRequest st (some lid) = st) ∧
    (∀ (st : ReqSt) (s : Nat) (srest : List Nat) (req : ReqMsg)
        (rest : List (Option ReqMsg)),
      st.stopRequested = false → st.readyFlag = true →
      st.requests = some req :: rest → st.senders = s :: srest →
      clookup st.credits s = 0 →
      sendRequest st none = { st with senders := srest ++ [s] }) := by
  refine ⟨?_, ?_, ?_, ?_⟩
  · intro st lid body rest h1 h2 h3 h4
    unfold sendMessage
    rw [h3]
    simp only [h1, h2]
    show sendWith st body rest lid st.senders = st
    unfold sendWith
    rw [if_pos h4, ← h3]
  · intro st s srest body rest h1 h2 h3 h4 h5
    unfold sendMessage
    rw [h3, h4]
    simp only [h1, h2]
    show sendWith st body rest s (srest ++ [s]) = _
    unfold sendWith
    rw [if_pos h5, ← h3, h1, h2]
  · intro st lid req rest h1 h2 h3 h4
    unfold sendRequest
    rw [h3]
    simp only [h1, h2]
    show reqSendWith st req rest lid st.senders = st
    unfold reqSendWith
    rw [if_pos h4, ← h3]
  · intro st s srest req rest h1 h2 h3 h4 h5
    unfold sendRequest
    rw [h3, h4]
    simp only [h1, h2]
    show reqSendWith st req rest s (srest ++ [s]) = _
    unfold reqSendWith
    rw [if_pos h5, ← h3, h1, h2]

/-- Witness for C10: concrete zero-credit pops in both clients, with and
without an event-supplied sender. -/
theorem c10_witness :
    sendMessage ⟨[some "a"], [0], [], true, false, 0, 0, false, false, ["a"], []⟩
        (some 0) =
      ⟨[some "a"], [0], [], true, false, 0, 0, false, false, ["a"], []⟩ ∧
    sendMessage ⟨[some "a"], [0, 1], [], true, false, 0, 0, false, false, ["a"], []⟩
        none =
      ⟨[some "a"], [1, 0], [], true, false, 0, 0, false, false, ["a"], []⟩ ∧
    sendRequest ⟨[some ⟨"r", none, none⟩], [0], [], [], [], [], true, false,
        0, 0, 0, false, []⟩ (some 0) =
      ⟨[some ⟨"r", none, none⟩], [0], [], [], [], [], true, false,
        0, 0, 0, false, []⟩ ∧
    sendRequest ⟨[some ⟨"r", none, none⟩], [0, 1], [], [], [], [], true, false,
        0, 0, 0, false, []⟩ none =
      ⟨[some ⟨"r", none, none⟩], [1, 0], [], [], [], [], true, false,
        0, 0, 0, false, []⟩ :=
  ⟨c10_zero_credit_is_noop.1 _ 0 "a" [] rfl rfl rfl rfl,
   c10_zero_credit_is_noop.2.1 _ 0 [1] "a" [] rfl rfl rfl rfl rfl,
   c10_zero_credit_is_noop.2.2.1 _ 0 ⟨"r", none, none⟩ [] rfl rfl rfl rfl,
   c10_zero_credit_is_noop.2.2.2 _ 0 [1] ⟨"r", none, none⟩ [] rfl rfl rfl rfl rfl⟩

end QTools
